import Mathlib

/-!
Shallow embedding of `proxy/server.py` from the randnd repository, together
with theorems settling the specification claims about it.

Python builtins used by the source (`str.strip`, `str.title`, `str.split`,
`str.format`, `random.randrange`, `random.choice`) are modelled explicitly;
randomness is modelled by passing the sequence of draws as data.
-/

namespace Randnd

/-- Python whitespace, as used by `str.strip()` and `str.split()` (ASCII subset). -/
def isPySpace (c : Char) : Bool :=
  c = ' ' || c = '\t' || c = '\n' || c = '\r' || c = '\x0b' || c = '\x0c'

/-- Python `str.strip()` with no arguments: removes whitespace from BOTH ends. -/
def pyStrip (s : String) : String :=
  ⟨((s.data.dropWhile isPySpace).reverse.dropWhile isPySpace).reverse⟩

/-- One step of Python `str.title()`: a character after a cased (alphabetic)
character is lowercased, a character after a non-cased one is uppercased. -/
def titleChar (prevCased : Bool) (c : Char) : Char :=
  if prevCased then c.toLower else c.toUpper

/-- The character loop of Python `str.title()` (ASCII model): tracks whether the
previous character was alphabetic. -/
def pyTitleGo : Bool → List Char → List Char
  | _, [] => []
  | prevCased, c :: cs =>
    if c.isAlpha then titleChar prevCased c :: pyTitleGo true cs
    else c :: pyTitleGo false cs

/-- Python `str.title()` (ASCII model). -/
def pyTitle (s : String) : String :=
  ⟨pyTitleGo false s.data⟩

/-- The character loop of Python `str.split()`: `acc` holds the characters of
the token currently being read, in reverse. -/
def pySplitGo : List Char → List Char → List String
  | acc, [] => if acc.isEmpty then [] else [String.mk acc.reverse]
  | acc, c :: rest =>
    if isPySpace c then
      if acc.isEmpty then pySplitGo [] rest
      else String.mk acc.reverse :: pySplitGo [] rest
    else pySplitGo (c :: acc) rest

/-- Python `str.split()` with no arguments: split on whitespace runs,
dropping empty tokens. -/
def pySplit (s : String) : List String :=
  pySplitGo [] s.data

/-- Embeds `class PartOfSpeech(Enum)` from `server.py`. -/
inductive PartOfSpeech where
  | noun
  | adjective
  | verbTransitive
  | verbIntransitive
  | adverb
  | interjection
  | preposition
deriving DecidableEq, Repr

/-- The single-character watchout4snakes codes, the enum values in the source. -/
def PartOfSpeech.value : PartOfSpeech → String
  | .noun => "n"
  | .adjective => "a"
  | .verbTransitive => "t"
  | .verbIntransitive => "i"
  | .adverb => "e"
  | .interjection => "z"
  | .preposition => "s"

/- `class Obscurity(IntEnum)` from `server.py`. -/
namespace Obscurity

def VERY_COMMON : Int := 10
def COMMON : Int := 20
def AVERAGE : Int := 35
def SOMEWHAT_UNCOMMON : Int := 50
def UNCOMMON : Int := 60
def VERY_UNCOMMON : Int := 70
def OBSCURE : Int := 95

end Obscurity

/-- Embeds the frozen dataclass `PhrasePart` from `server.py`. -/
structure PhrasePart where
  pos : PartOfSpeech
  obscurity : Int
  title : Bool := true
deriving DecidableEq, Repr

/-- A piece of a Python format template: literal text or an auto-numbered
`\x7b\x7d` slot. -/
inductive TplPiece where
  | lit (s : String)
  | slot
deriving DecidableEq, Repr

/-- Python `template.format(*words)` with auto-numbered positional slots:
a slot with no argument left raises IndexError (modelled as `none`);
leftover arguments are silently ignored. -/
def pyFormat : List TplPiece → List String → Option String
  | [], _ => some ""
  | .lit s :: rest, args => (pyFormat rest args).map fun r => s ++ r
  | .slot :: _, [] => none
  | .slot :: rest, a :: args => (pyFormat rest args).map fun r => a ++ r

/-- Number of positional slots in a template. -/
def slotCount : List TplPiece → Nat
  | [] => 0
  | .lit _ :: rest => slotCount rest
  | .slot :: rest => slotCount rest + 1

/-- Embeds the frozen dataclass `Phrase` from `server.py`. -/
structure Phrase where
  parts : List PhrasePart
  template : List TplPiece

/-- Method `Phrase.render`: `self.template.format(*words)`. -/
def Phrase.render (p : Phrase) (words : List String) : Option String :=
  pyFormat p.template words

/- `class Watchout4SnakesSource` from `server.py`. A successful HTTP exchange
is modelled by the response the remote endpoint produced: its status code and
its plain-text body. -/
namespace Watchout4SnakesSource

/-- The `form_data` dict built by `get_words`: for part `i` (0-based here,
1-based in the field names) the fields `Pos\x7bi+1\x7d` and `Level\x7bi+1\x7d`. -/
def form_data (parts : List PhrasePart) : List (String × String) :=
  parts.enum.flatMap fun ip =>
    [("Pos" ++ toString (ip.1 + 1), ip.2.pos.value),
     ("Level" ++ toString (ip.1 + 1), toString ip.2.obscurity)]

/-- Method `Watchout4SnakesSource.get_words`: posts the form and returns
`body.split()`. The response status is a parameter but is never inspected by
the source code, and no word-count check is performed. -/
def get_words (parts : List PhrasePart) (status : Nat) (body : String) :
    List String :=
  let _ := form_data parts
  let _ := status
  pySplit body

end Watchout4SnakesSource

/- `class VerachellSource` from `server.py`. The filesystem is modelled by a
function from file paths to their list of lines, and randomness by explicit
draw data: one `random.choice` index plus one `random.randrange` stream per
requested part. -/
namespace VerachellSource

def BASE_PATH : String := "wordlists/verachell"

/-- The `FILES` class attribute: candidate word-list files per part of speech. -/
def FILES : PartOfSpeech → List String
  | .noun =>
    [BASE_PATH ++ "/nouns/mostly-nouns-ment.txt",
     BASE_PATH ++ "/nouns/mostly-nouns.txt",
     BASE_PATH ++ "/nouns/mostly-plural-nouns.txt"]
  | .adjective =>
    [BASE_PATH ++ "/other-categories/mostly-adjectives.txt"]
  | .verbTransitive =>
    [BASE_PATH ++ "/verbs/transitive-past-tense.txt",
     BASE_PATH ++ "/verbs/transitive-present-tense.txt"]
  | .verbIntransitive =>
    [BASE_PATH ++ "/verbs/mostly-verbs-infinitive.txt",
     BASE_PATH ++ "/verbs/mostly-verbs-past-tense.txt",
     BASE_PATH ++ "/verbs/mostly-verbs-present-tense.txt"]
  | .adverb =>
    [BASE_PATH ++ "/other-categories/ly-adverbs.txt",
     BASE_PATH ++ "/other-categories/mostly-adverbs.txt"]
  | .interjection =>
    [BASE_PATH ++ "/other-categories/mostly-interjections.txt"]
  | .preposition =>
    [BASE_PATH ++ "/other-categories/mostly-prepositions.txt"]

/-- Python `random.choice(xs)` given the drawn index `d` (always `< xs.length`
for a real draw); raises IndexError (modelled `none`) on an empty sequence. -/
def random_choice {α : Type} (xs : List α) (d : Nat) : Option α :=
  xs[d]?

/-- The loop of `VerachellSource.random_line`: `chosen` is the line currently
held, `num` the 1-based position of the next line (the `enumerate(file, 2)`
counter), and each remaining line consumes one `random.randrange(num)` draw;
the line replaces `chosen` exactly when its draw is 0. -/
def reservoirGo {α : Type} : α → Nat → List α → List Nat → α
  | chosen, _, [], _ => chosen
  | chosen, _, _ :: _, [] => chosen
  | chosen, num, line :: lines, d :: ds =>
    reservoirGo (if d = 0 then line else chosen) (num + 1) lines ds

/-- Method `VerachellSource.random_line`: `next(file)` raises StopIteration on an
empty file (modelled `none`); otherwise reservoir sampling over the remaining
lines with counter starting at 2. -/
def random_line {α : Type} (lines : List α) (draws : List Nat) : Option α :=
  match lines with
  | [] => none
  | l :: ls => some (reservoirGo l 2 ls draws)

/-- Method `VerachellSource.random_file`: `random.choice(self.FILES[pos])`, returning
the chosen path. Parameterized over the files table so that misconfigured
(empty) candidate lists can be stated; the real source uses `FILES`. -/
def random_file (files : PartOfSpeech → List String) (pos : PartOfSpeech)
    (d : Nat) : Option String :=
  random_choice (files pos) d

/-- Method `VerachellSource.get_word`: pick a random file, pick a random line from its
contents, `strip()` it, and `title()` it when the part's flag is set.
`contents` maps a file path to its list of lines; `fd` is the file draw and
`lds` the line-draw stream. Any failure (empty candidate list, empty file)
propagates as `none`. -/
def get_word (files : PartOfSpeech → List String)
    (contents : String → List String) (part : PhrasePart)
    (fd : Nat) (lds : List Nat) : Option String :=
  match random_file files part.pos fd with
  | none => none
  | some f =>
    match random_line (contents f) lds with
    | none => none
    | some line =>
      let word := pyStrip line
      some (if part.title then pyTitle word else word)

/-- Method `VerachellSource.get_words`: the list comprehension
`[self.get_word(part) for part in parts]`; `rand i` supplies the draws consumed
while processing the part at position `i`, and the first failure aborts the
whole comprehension. -/
def get_words (files : PartOfSpeech → List String)
    (contents : String → List String) (rand : Nat → Nat × List Nat) :
    List PhrasePart → Nat → Option (List String)
  | [], _ => some []
  | part :: rest, i =>
    match get_word files contents part (rand i).1 (rand i).2 with
    | none => none
    | some w =>
      match get_words files contents rand rest (i + 1) with
      | none => none
      | some ws => some (w :: ws)

end VerachellSource

/-- Function `render_phrase`: fetch words (here: the word list the source returned),
title-case each word whose part has the flag set, substitute positionally, and
return the rendered string together with the raw word list. -/
def render_phrase (phrase : Phrase) (words : List String) :
    Option (String × List String) :=
  let cased_words :=
    (phrase.parts.zip words).map fun pw =>
      if pw.1.title then pyTitle pw.2 else pw.2
  (phrase.render cased_words).map fun r => (r, words)

/-- The `SPELL` phrase constant: template `"I cast \x7b\x7d \x7b\x7d."`. -/
def SPELL : Phrase where
  parts :=
    [{ pos := .verbTransitive, obscurity := Obscurity.AVERAGE },
     { pos := .noun, obscurity := Obscurity.AVERAGE }]
  template := [.lit "I cast ", .slot, .lit " ", .slot, .lit "."]

/-- The `REACTION` phrase constant: template `"\x7b\x7d!"`. -/
def REACTION : Phrase where
  parts := [{ pos := .interjection, obscurity := Obscurity.AVERAGE }]
  template := [.slot, .lit "!"]


/-! ### Reservoir sampling uniformity (C1)

The random draws of `random_line` are modelled as independent uniform choices:
for a file whose tail (after the first line) has `n` lines, the draw consumed
at enumerate-counter `k` ranges uniformly over `[0, k)`, so the probability of
an outcome is its frequency among all draw sequences. -/

/-- All draw sequences for `n` remaining lines when the enumerate counter
starts at `start`. -/
def allDraws : Nat → Nat → List (List Nat)
  | 0, _ => [[]]
  | n + 1, start =>
    (List.range start).flatMap fun d =>
      (allDraws n (start + 1)).map fun ds => d :: ds

/-- The product `start * (start + 1) * ... * (start + n - 1)`. -/
def risingProd : Nat → Nat → Nat
  | _, 0 => 1
  | start, n + 1 => start * risingProd (start + 1) n

/-- Number of draw sequences on which the initially chosen line survives the
whole pass, for a tail of `n` lines and counter starting at `start`. -/
def cInit : Nat → Nat → Nat
  | _, 0 => 1
  | start, n + 1 => (start - 1) * cInit (start + 1) n

/-- Number of draw sequences on which the tail line at 0-based index `j` ends
up chosen, for a tail of `n` lines and counter starting at `start`. -/
def cLine : Nat → Nat → Nat → Nat
  | _, 0, _ => 0
  | start, n + 1, 0 => cInit (start + 1) n
  | start, n + 1, j + 1 => start * cLine (start + 1) n j

/-! ### Character-level facts about the ASCII case maps -/

lemma char_toNat_ofNat_lt {n : Nat} (h : n < 55296) : (Char.ofNat n).toNat = n := by
  rw [Char.ofNat, dif_pos (Or.inl h)]
  rfl

lemma char_eq_of_toNat_eq {a b : Char} (h : a.toNat = b.toNat) : a = b :=
  Char.ext (UInt32.toNat.inj h)

lemma char_toLower_eq (c : Char) :
    c.toLower = if 65 ≤ c.toNat ∧ c.toNat ≤ 90 then Char.ofNat (c.toNat + 32) else c := rfl

lemma char_toUpper_eq (c : Char) :
    c.toUpper = if 97 ≤ c.toNat ∧ c.toNat ≤ 122 then Char.ofNat (c.toNat - 32) else c := rfl

lemma char_toLower_toNat (c : Char) :
    c.toLower.toNat = if 65 ≤ c.toNat ∧ c.toNat ≤ 90 then c.toNat + 32 else c.toNat := by
  rw [char_toLower_eq]
  split_ifs with h
  · exact char_toNat_ofNat_lt (by omega)
  · rfl

lemma char_toUpper_toNat (c : Char) :
    c.toUpper.toNat = if 97 ≤ c.toNat ∧ c.toNat ≤ 122 then c.toNat - 32 else c.toNat := by
  rw [char_toUpper_eq]
  split_ifs with h
  · exact char_toNat_ofNat_lt (by omega)
  · rfl

lemma char_isUpper_iff (c : Char) : c.isUpper = true ↔ 65 ≤ c.toNat ∧ c.toNat ≤ 90 := by
  simp only [Char.isUpper, Bool.and_eq_true, decide_eq_true_eq, ge_iff_le]
  exact and_congr
    ⟨fun h => BitVec.le_def.mp (UInt32.le_def.mp h),
     fun h => UInt32.le_def.mpr (BitVec.le_def.mpr h)⟩
    ⟨fun h => BitVec.le_def.mp (UInt32.le_def.mp h),
     fun h => UInt32.le_def.mpr (BitVec.le_def.mpr h)⟩

lemma char_isLower_iff (c : Char) : c.isLower = true ↔ 97 ≤ c.toNat ∧ c.toNat ≤ 122 := by
  simp only [Char.isLower, Bool.and_eq_true, decide_eq_true_eq, ge_iff_le]
  exact and_congr
    ⟨fun h => BitVec.le_def.mp (UInt32.le_def.mp h),
     fun h => UInt32.le_def.mpr (BitVec.le_def.mpr h)⟩
    ⟨fun h => BitVec.le_def.mp (UInt32.le_def.mp h),
     fun h => UInt32.le_def.mpr (BitVec.le_def.mpr h)⟩

lemma char_isAlpha_iff (c : Char) :
    c.isAlpha = true ↔ (65 ≤ c.toNat ∧ c.toNat ≤ 90) ∨ (97 ≤ c.toNat ∧ c.toNat ≤ 122) := by
  simp only [Char.isAlpha, Bool.or_eq_true, char_isUpper_iff, char_isLower_iff]

lemma char_toLower_toLower (c : Char) : c.toLower.toLower = c.toLower := by
  apply char_eq_of_toNat_eq
  rw [char_toLower_toNat, char_toLower_toNat c]
  split_ifs <;> omega

lemma char_toUpper_toUpper (c : Char) : c.toUpper.toUpper = c.toUpper := by
  apply char_eq_of_toNat_eq
  rw [char_toUpper_toNat, char_toUpper_toNat c]
  split_ifs <;> omega

lemma char_isAlpha_toLower (c : Char) (h : c.isAlpha = true) : c.toLower.isAlpha = true := by
  rw [char_isAlpha_iff] at h ⊢
  rw [char_toLower_toNat]
  split_ifs <;> omega

lemma char_isAlpha_toUpper (c : Char) (h : c.isAlpha = true) : c.toUpper.isAlpha = true := by
  rw [char_isAlpha_iff] at h ⊢
  rw [char_toUpper_toNat]
  split_ifs <;> omega

lemma titleChar_titleChar (b : Bool) (c : Char) :
    titleChar b (titleChar b c) = titleChar b c := by
  cases b with
  | false => exact char_toUpper_toUpper c
  | true => exact char_toLower_toLower c

lemma titleChar_isAlpha (b : Bool) (c : Char) (h : c.isAlpha = true) :
    (titleChar b c).isAlpha = true := by
  cases b with
  | false => exact char_isAlpha_toUpper c h
  | true => exact char_isAlpha_toLower c h

lemma pyTitleGo_idem (cs : List Char) : ∀ b, pyTitleGo b (pyTitleGo b cs) = pyTitleGo b cs := by
  induction cs with
  | nil => intro b; rfl
  | cons c cs ih =>
    intro b
    by_cases h : c.isAlpha = true
    · rw [pyTitleGo, if_pos h, pyTitleGo, if_pos (titleChar_isAlpha b c h),
        titleChar_titleChar b c, ih true]
    · rw [pyTitleGo, if_neg h, pyTitleGo, if_neg h, ih false]


/-! ### Helper lemmas about the template substitution -/

lemma pyFormat_eq_none_iff (tpl : List TplPiece) (args : List String) :
    pyFormat tpl args = none ↔ args.length < slotCount tpl := by
  induction tpl generalizing args with
  | nil => simp [pyFormat, slotCount]
  | cons piece rest ih =>
    cases piece with
    | lit s => simp [pyFormat, slotCount, Option.map_eq_none', ih]
    | slot =>
      cases args with
      | nil => simp [pyFormat, slotCount]
      | cons a args =>
        simp only [pyFormat, slotCount, Option.map_eq_none', ih, List.length_cons]
        omega

/-! ### Claim theorems (renderer and sources) -/

/-- Claim C9: title-casing as applied by the source and renderer is idempotent:
`title(title(w)) == title(w)` for every string `w`. -/
theorem title_idempotent (w : String) : pyTitle (pyTitle w) = pyTitle w :=
  congrArg String.mk (pyTitleGo_idem w.data false)

/-- Claim C5 counterexample: a phrase whose template has one slot, rendered with
two words, silently drops the extra word and produces output instead of
failing. -/
theorem render_extra_words_cex :
    slotCount [TplPiece.slot] = 1 ∧
    (Phrase.mk [{ pos := PartOfSpeech.noun, obscurity := 35 }]
        [TplPiece.slot]).render ["a", "b"] = some "a" :=
  ⟨rfl, rfl⟩

/-- Claim C5 (amended): rendering fails exactly when the word list is SHORTER
than the template slot count; extra words are silently ignored, so a surplus
does not fail. -/
theorem render_none_iff_short (p : Phrase) (words : List String) :
    p.render words = none ↔ words.length < slotCount p.template :=
  pyFormat_eq_none_iff p.template words

/-- Claim C2 counterexample: the remote source returns the split response body
even when its token count differs from the number of requested parts — here two
parts but a one-token (success) response, so the result is shorter than
`parts`. -/
theorem remote_length_cex :
    (Watchout4SnakesSource.get_words
      [{ pos := PartOfSpeech.noun, obscurity := 35 },
       { pos := PartOfSpeech.noun, obscurity := 35 }] 200 "hello").length ≠ 2 := by
  decide

/-- Claim C2 (amended): the local `VerachellSource.get_words` always returns
exactly one word per requested part, but the remote
`Watchout4SnakesSource.get_words` returns the whitespace tokens of the response
body, however many there are, with no length check against `parts`. -/
theorem get_words_length_invariant :
    (∀ (files : PartOfSpeech → List String) (contents : String → List String)
        (rand : Nat → Nat × List Nat) (parts : List PhrasePart) (i : Nat)
        (ws : List String),
        VerachellSource.get_words files contents rand parts i = some ws →
        ws.length = parts.length) ∧
    (∀ (parts : List PhrasePart) (status : Nat) (body : String),
        Watchout4SnakesSource.get_words parts status body = pySplit body) := by
  constructor
  · intro files contents rand parts
    induction parts with
    | nil =>
      intro i ws h
      rw [VerachellSource.get_words] at h
      cases h
      rfl
    | cons part rest ih =>
      intro i ws h
      cases hw : VerachellSource.get_word files contents part (rand i).1 (rand i).2 with
      | none =>
        rw [VerachellSource.get_words, hw] at h
        cases h
      | some w =>
        cases hws : VerachellSource.get_words files contents rand rest (i + 1) with
        | none =>
          rw [VerachellSource.get_words, hw, hws] at h
          cases h
        | some ws2 =>
          rw [VerachellSource.get_words, hw, hws] at h
          cases h
          simp [ih (i + 1) ws2 hws]
  · intro parts status body
    rfl

/-- Claim C2 witness: two noun parts against a one-line wordlist yield exactly
two words. -/
theorem get_words_length_invariant_witness :
    (["Dragon", "Dragon"] : List String).length =
      ([{ pos := PartOfSpeech.noun, obscurity := 35 },
        { pos := PartOfSpeech.noun, obscurity := 35 }] : List PhrasePart).length :=
  get_words_length_invariant.1 VerachellSource.FILES (fun _ => ["dragon"])
    (fun _ => (0, [])) _ 0 _ (by decide)

/-- Claim C3 counterexample: a non-success status (500) together with a
token-count mismatch (two tokens for one part) is NOT surfaced as a failure:
`get_words` still returns a word list. -/
theorem remote_no_failure_cex :
    Watchout4SnakesSource.get_words
      [{ pos := PartOfSpeech.noun, obscurity := 35 }] 500 "oops error"
      = ["oops", "error"] := by
  decide

/-- Claim C3 (amended): `Watchout4SnakesSource.get_words` performs no check at
all — its result is independent of the response status, and a word-count
mismatch surfaces only downstream, where rendering fails exactly when the word
list is shorter than the template slot count. -/
theorem remote_mismatch_amended :
    (∀ (parts : List PhrasePart) (status1 status2 : Nat) (body : String),
        Watchout4SnakesSource.get_words parts status1 body =
          Watchout4SnakesSource.get_words parts status2 body) ∧
    (∀ (phrase : Phrase) (words : List String),
        words.length < slotCount phrase.template →
        render_phrase phrase words = none) := by
  constructor
  · intro parts status1 status2 body
    rfl
  · intro phrase words h
    rw [render_phrase]
    have hlen : ((phrase.parts.zip words).map fun pw =>
        if pw.1.title then pyTitle pw.2 else pw.2).length < slotCount phrase.template := by
      rw [List.length_map, List.length_zip]
      omega
    rw [Phrase.render, (pyFormat_eq_none_iff _ _).mpr hlen]
    rfl

/-- Claim C3 witness: rendering `SPELL` (two slots) with a single word fails. -/
theorem remote_mismatch_amended_witness :
    (["x"] : List String).length < slotCount SPELL.template ∧
      render_phrase SPELL ["x"] = none :=
  ⟨by decide, remote_mismatch_amended.2 SPELL ["x"] (by decide)⟩

/-- Claim C6: a part of speech with no configured candidate files, or a
selected word-list file with no lines, makes the local source fail with no
word returned. -/
theorem get_word_config_error (files : PartOfSpeech → List String)
    (contents : String → List String) (part : PhrasePart) (fd : Nat)
    (lds : List Nat)
    (h : files part.pos = [] ∨
      ∃ f, VerachellSource.random_file files part.pos fd = some f ∧
        contents f = []) :
    VerachellSource.get_word files contents part fd lds = none := by
  rcases h with h | ⟨f, hf, hc⟩
  · rw [VerachellSource.get_word, VerachellSource.random_file,
      VerachellSource.random_choice, h]
    rfl
  · rw [VerachellSource.get_word, hf]
    simp [VerachellSource.random_line, hc]

/-- Claim C6 witness: an empty candidate-file table and an empty file each
produce `none`. -/
theorem get_word_config_error_witness :
    VerachellSource.get_word (fun _ => []) (fun _ => ["x"])
        { pos := PartOfSpeech.noun, obscurity := 35 } 0 [] = none ∧
      VerachellSource.get_word (fun _ => ["f"]) (fun _ => [])
        { pos := PartOfSpeech.noun, obscurity := 35 } 0 [] = none :=
  ⟨get_word_config_error _ _ _ _ _ (Or.inl rfl),
   get_word_config_error _ _ _ _ _ (Or.inr ⟨"f", rfl, rfl⟩)⟩

/-- Claim C10: the `FILES` table maps every part of speech to a non-empty
candidate list, so `random.choice` over it succeeds for every in-range draw. -/
theorem FILES_total_nonempty (pos : PartOfSpeech) (d : Nat) :
    VerachellSource.FILES pos ≠ [] ∧
      (d < (VerachellSource.FILES pos).length →
        ∃ f, VerachellSource.random_file VerachellSource.FILES pos d = some f) := by
  constructor
  · cases pos <;> simp [VerachellSource.FILES]
  · intro hd
    exact ⟨(VerachellSource.FILES pos)[d],
      by rw [VerachellSource.random_file, VerachellSource.random_choice,
        List.getElem?_eq_getElem hd]⟩

/-- Claim C10 witness: the third noun file exists. -/
theorem FILES_total_nonempty_witness :
    ∃ f, VerachellSource.random_file VerachellSource.FILES
      PartOfSpeech.noun 2 = some f :=
  (FILES_total_nonempty PartOfSpeech.noun 2).2 (by decide)


/-! ### Renderer specification (C4), strip behaviour (C7), noninterference (C8) -/

/-- Claim C4: with one source word per part, `render_phrase` title-cases word
`i` exactly when `parts[i].title` is set, substitutes the cased words
positionally into the template, and returns the raw word list unchanged as the
second component. -/
theorem render_phrase_spec (phrase : Phrase) (words : List String)
    (hlen : words.length = phrase.parts.length)
    (hslots : slotCount phrase.template = phrase.parts.length) :
    ∃ (r : String) (cased : List String),
      pyFormat phrase.template cased = some r ∧
      render_phrase phrase words = some (r, words) ∧
      cased.length = words.length ∧
      ∀ (i : Nat) (hi : i < words.length),
        cased[i]? = some (if (phrase.parts[i]).title
          then pyTitle words[i] else words[i]) := by
  have hclen : ((phrase.parts.zip words).map fun pw =>
      if pw.1.title then pyTitle pw.2 else pw.2).length = words.length := by
    rw [List.length_map, List.length_zip, hlen, Nat.min_self]
  have hnone : pyFormat phrase.template ((phrase.parts.zip words).map fun pw =>
      if pw.1.title then pyTitle pw.2 else pw.2) ≠ none := by
    rw [Ne, pyFormat_eq_none_iff]
    omega
  obtain ⟨r, hr⟩ := Option.ne_none_iff_exists'.mp hnone
  refine ⟨r, _, hr, ?_, hclen, ?_⟩
  · show (Phrase.render phrase ((phrase.parts.zip words).map fun pw =>
        if pw.1.title then pyTitle pw.2 else pw.2)).map (fun s => (s, words))
      = some (r, words)
    rw [Phrase.render, hr]
    rfl
  · intro i hi
    have hizip : i < (phrase.parts.zip words).length := by
      rw [List.length_zip]
      omega
    rw [List.getElem?_eq_getElem (by omega : i < ((phrase.parts.zip words).map
      fun pw => if pw.1.title then pyTitle pw.2 else pw.2).length)]
    simp [List.getElem_zip]

/-- Claim C4 witness: `SPELL` rendered from the raw words `cast dragon`,
showing the double casing and the untouched raw list. -/
theorem render_phrase_spec_witness :
    (["cast", "dragon"] : List String).length = SPELL.parts.length ∧
      slotCount SPELL.template = SPELL.parts.length ∧
      ∃ (r : String) (cased : List String),
        pyFormat SPELL.template cased = some r ∧
        render_phrase SPELL ["cast", "dragon"] = some (r, ["cast", "dragon"]) ∧
        cased.length = (["cast", "dragon"] : List String).length ∧
        ∀ (i : Nat) (hi : i < (["cast", "dragon"] : List String).length),
          cased[i]? = some (if (SPELL.parts[i]).title
            then pyTitle (["cast", "dragon"] : List String)[i]
            else (["cast", "dragon"] : List String)[i]) :=
  ⟨by decide, by decide, render_phrase_spec SPELL ["cast", "dragon"] (by decide) (by decide)⟩

/-- Claim C7 counterexample: `get_word` removes LEADING whitespace as well —
the chosen line `" foo"` (with `title` unset) comes back as `"foo"`, not
`" foo"` as trailing-only stripping would give. -/
theorem strip_leading_cex :
    VerachellSource.get_word VerachellSource.FILES (fun _ => [" foo"])
        { pos := PartOfSpeech.noun, obscurity := 35, title := false } 0 []
      = some "foo" ∧ ("foo" : String) ≠ " foo" := by
  constructor
  · rfl
  · decide

/-- Claim C7 (amended): `get_word` strips whitespace from BOTH ends of the
chosen line (Python `str.strip()`), before optional title-casing: the chosen
line decomposes as whitespace ++ stripped-core ++ whitespace. -/
theorem get_word_strip_amended (files : PartOfSpeech → List String)
    (contents : String → List String) (part : PhrasePart) (fd : Nat)
    (lds : List Nat) (f line : String)
    (hf : VerachellSource.random_file files part.pos fd = some f)
    (hl : VerachellSource.random_line (contents f) lds = some line) :
    VerachellSource.get_word files contents part fd lds =
      some (if part.title then pyTitle (pyStrip line) else pyStrip line) ∧
    ∃ pre post, line.data = pre ++ (pyStrip line).data ++ post ∧
      (∀ c ∈ pre, isPySpace c = true) ∧ (∀ c ∈ post, isPySpace c = true) := by
  constructor
  · simp only [VerachellSource.get_word, hf, hl]
  · refine ⟨line.data.takeWhile isPySpace,
      ((line.data.dropWhile isPySpace).reverse.takeWhile isPySpace).reverse,
      ?_, ?_, ?_⟩
    · show line.data = line.data.takeWhile isPySpace ++
        ((line.data.dropWhile isPySpace).reverse.dropWhile isPySpace).reverse ++
        ((line.data.dropWhile isPySpace).reverse.takeWhile isPySpace).reverse
      conv_lhs => rw [← List.takeWhile_append_dropWhile (p := isPySpace) (l := line.data)]
      rw [List.append_assoc]
      congr 1
      calc line.data.dropWhile isPySpace
          = ((line.data.dropWhile isPySpace).reverse).reverse := by
            rw [List.reverse_reverse]
        _ = (((line.data.dropWhile isPySpace).reverse.takeWhile isPySpace) ++
              ((line.data.dropWhile isPySpace).reverse.dropWhile isPySpace)).reverse := by
            rw [List.takeWhile_append_dropWhile]
        _ = ((line.data.dropWhile isPySpace).reverse.dropWhile isPySpace).reverse ++
              ((line.data.dropWhile isPySpace).reverse.takeWhile isPySpace).reverse := by
            rw [List.reverse_append]
    · intro c hcm
      exact List.mem_takeWhile_imp hcm
    · intro c hcm
      rw [List.mem_reverse] at hcm
      exact List.mem_takeWhile_imp hcm

/-- Claim C7 witness: the line `"  a b \n"` is stripped on both ends and then
title-cased. -/
theorem get_word_strip_amended_witness :
    VerachellSource.get_word (fun _ => ["f"]) (fun _ => ["  a b \n"])
        { pos := PartOfSpeech.noun, obscurity := 35, title := true } 0 [] =
      some (if ({ pos := PartOfSpeech.noun, obscurity := 35, title := true } :
          PhrasePart).title
        then pyTitle (pyStrip "  a b \n") else pyStrip "  a b \n") ∧
    ∃ pre post, ("  a b \n" : String).data =
        pre ++ (pyStrip "  a b \n").data ++ post ∧
      (∀ c ∈ pre, isPySpace c = true) ∧ (∀ c ∈ post, isPySpace c = true) :=
  get_word_strip_amended (fun _ => ["f"]) (fun _ => ["  a b \n"])
    { pos := PartOfSpeech.noun, obscurity := 35, title := true } 0 [] "f"
    "  a b \n" rfl rfl

/-- Lemma: `get_word` reads only the `pos` and `title` fields of its part, never the
obscurity. -/
lemma get_word_pos_title (files : PartOfSpeech → List String)
    (contents : String → List String) (a b : PhrasePart) (fd : Nat)
    (lds : List Nat) (hpos : a.pos = b.pos) (htitle : a.title = b.title) :
    VerachellSource.get_word files contents a fd lds =
      VerachellSource.get_word files contents b fd lds := by
  rw [VerachellSource.get_word, VerachellSource.get_word, hpos, htitle]

/-- Claim C8: the local source is obscurity-noninterferent — two part lists
that agree except on obscurity produce identical words under the same draws
and file contents. -/
theorem obscurity_noninterference (files : PartOfSpeech → List String)
    (contents : String → List String) (rand : Nat → Nat × List Nat)
    (parts1 parts2 : List PhrasePart) (i : Nat)
    (h : List.Forall₂ (fun a b => a.pos = b.pos ∧ a.title = b.title)
      parts1 parts2) :
    VerachellSource.get_words files contents rand parts1 i =
      VerachellSource.get_words files contents rand parts2 i := by
  induction h generalizing i with
  | nil => rfl
  | @cons a b l1 l2 hab htail ih =>
    rw [VerachellSource.get_words, VerachellSource.get_words,
      get_word_pos_title files contents a b (rand i).1 (rand i).2 hab.1 hab.2,
      ih (i + 1)]

/-- Claim C8 witness: a very-common and an obscure request for the same noun
part yield the same word. -/
theorem obscurity_noninterference_witness :
    VerachellSource.get_words VerachellSource.FILES (fun _ => ["dragon"])
        (fun _ => (0, [])) [{ pos := PartOfSpeech.noun, obscurity := 10 }] 0 =
      VerachellSource.get_words VerachellSource.FILES (fun _ => ["dragon"])
        (fun _ => (0, [])) [{ pos := PartOfSpeech.noun, obscurity := 95 }] 0 :=
  obscurity_noninterference _ _ _ _ _ 0
    (List.Forall₂.cons ⟨rfl, rfl⟩ List.Forall₂.nil)


lemma sum_replicate_nat (n k : Nat) : (List.replicate n k).sum = n * k := by
  induction n with
  | zero => simp
  | succ n ih => rw [List.replicate_succ, List.sum_cons, ih, Nat.succ_mul]; omega

lemma sum_map_range_ite (A B m : Nat) :
    ((List.range (m + 1)).map fun d => if d = 0 then A else B).sum = A + m * B := by
  rw [List.range_succ_eq_map, List.map_cons, List.sum_cons, List.map_map]
  have hc : ((fun d => if d = 0 then A else B) ∘ Nat.succ) = fun _ => B := by
    funext d
    simp [Function.comp]
  rw [hc, List.map_const', sum_replicate_nat, List.length_range]
  simp

lemma length_allDraws (n : Nat) : ∀ start, (allDraws n start).length = risingProd start n := by
  induction n with
  | zero => intro start; rfl
  | succ n ih =>
    intro start
    rw [allDraws, List.length_flatMap]
    have hc : ((List.length ∘ fun d => (allDraws n (start + 1)).map fun ds => d :: ds)) =
        fun _ => risingProd (start + 1) n := by
      funext d
      simp [Function.comp, ih]
    rw [hc, List.map_const', sum_replicate_nat, List.length_range, risingProd]

lemma risingProd_pos (n : Nat) : ∀ start, 1 ≤ start → 0 < risingProd start n := by
  induction n with
  | zero => intro start _; exact Nat.one_pos
  | succ n ih =>
    intro start hs
    rw [risingProd]
    exact Nat.mul_pos (by omega) (ih (start + 1) (by omega))

lemma cInit_mul (n : Nat) : ∀ m, cInit (m + 1) n * (m + n) = m * risingProd (m + 1) n := by
  induction n with
  | zero => intro m; simp [cInit, risingProd]
  | succ n ih =>
    intro m
    have h := ih (m + 1)
    rw [cInit, risingProd]
    simp only [Nat.add_sub_cancel]
    calc m * cInit (m + 1 + 1) n * (m + (n + 1))
        = m * (cInit (m + 1 + 1) n * (m + 1 + n)) := by ring
      _ = m * ((m + 1) * risingProd (m + 1 + 1) n) := by rw [h]

lemma cLine_mul (n : Nat) : ∀ j m, j < n → cLine (m + 1) n j * (m + n) = risingProd (m + 1) n := by
  induction n with
  | zero => intro j m hj; omega
  | succ n ih =>
    intro j m hj
    cases j with
    | zero =>
      rw [cLine, risingProd]
      have h := cInit_mul n (m + 1)
      calc cInit (m + 1 + 1) n * (m + (n + 1))
          = cInit (m + 1 + 1) n * (m + 1 + n) := by ring_nf
        _ = (m + 1) * risingProd (m + 1 + 1) n := h
    | succ j =>
      rw [cLine, risingProd]
      have h := ih j (m + 1) (by omega)
      calc (m + 1) * cLine (m + 1 + 1) n j * (m + (n + 1))
          = (m + 1) * (cLine (m + 1 + 1) n j * (m + 1 + n)) := by ring
        _ = (m + 1) * risingProd (m + 1 + 1) n := by rw [h]

lemma reservoirGo_mem {α : Type} (lines : List α) :
    ∀ (chosen : α) (num : Nat) (ds : List Nat),
      VerachellSource.reservoirGo chosen num lines ds ∈ chosen :: lines := by
  induction lines with
  | nil =>
    intro chosen num ds
    cases ds <;> simp [VerachellSource.reservoirGo]
  | cons line rest ih =>
    intro chosen num ds
    cases ds with
    | nil => simp [VerachellSource.reservoirGo]
    | cons d ds =>
      rw [VerachellSource.reservoirGo]
      have h := ih (if d = 0 then line else chosen) (num + 1) ds
      by_cases hd : d = 0 <;> simp [hd] at h ⊢ <;> tauto

lemma countP_allDraws_notmem {α : Type} [DecidableEq α] (lines : List α)
    (start : Nat) (chosen target : α) (hnotin : target ∉ chosen :: lines) :
    ((allDraws lines.length start).countP fun ds =>
      decide (VerachellSource.reservoirGo chosen start lines ds = target)) = 0 := by
  rw [List.countP_eq_zero]
  intro ds _
  simp only [decide_eq_true_eq]
  intro heq
  exact hnotin (heq ▸ reservoirGo_mem lines chosen start ds)

lemma countP_allDraws_init {α : Type} [DecidableEq α] (lines : List α) :
    ∀ (m : Nat) (chosen : α), chosen ∉ lines →
      ((allDraws lines.length (m + 1)).countP fun ds =>
        decide (VerachellSource.reservoirGo chosen (m + 1) lines ds = chosen)) =
      cInit (m + 1) lines.length := by
  induction lines with
  | nil =>
    intro m chosen _
    simp [allDraws, cInit, List.countP, List.countP.go, VerachellSource.reservoirGo]
  | cons line rest ih =>
    intro m chosen hnotin
    rw [List.length_cons, allDraws, List.countP_flatMap]
    have hmap : ((List.range (m + 1)).map
        ((List.countP fun ds =>
          decide (VerachellSource.reservoirGo chosen (m + 1) (line :: rest) ds = chosen)) ∘
          fun d => (allDraws rest.length (m + 1 + 1)).map fun ds => d :: ds)) =
        (List.range (m + 1)).map fun d =>
          if d = 0 then 0 else cInit (m + 1 + 1) rest.length := by
      apply List.map_congr_left
      intro d _
      simp only [Function.comp, List.countP_map]
      have hpred : ((fun ds =>
          decide (VerachellSource.reservoirGo chosen (m + 1) (line :: rest) ds = chosen)) ∘
            fun ds => d :: ds) =
          fun ds => decide (VerachellSource.reservoirGo (if d = 0 then line else chosen)
            (m + 1 + 1) rest ds = chosen) := by
        funext ds
        simp only [Function.comp]
        rw [VerachellSource.reservoirGo]
      rw [hpred]
      by_cases hd : d = 0
      · subst hd
        simp only [if_pos rfl]
        exact countP_allDraws_notmem rest (m + 1 + 1) line chosen hnotin
      · simp only [if_neg hd]
        exact ih (m + 1) chosen fun hmem => hnotin (List.mem_cons_of_mem line hmem)
    rw [hmap, sum_map_range_ite, cInit]
    simp

lemma countP_allDraws_line {α : Type} [DecidableEq α] (lines : List α) :
    ∀ (m j : Nat) (hj : j < lines.length) (chosen : α),
      (chosen :: lines).Nodup →
      ((allDraws lines.length (m + 1)).countP fun ds =>
        decide (VerachellSource.reservoirGo chosen (m + 1) lines ds = lines[j])) =
      cLine (m + 1) lines.length j := by
  induction lines with
  | nil =>
    intro m j hj
    simp at hj
  | cons line rest ih =>
    intro m j hj chosen hnd
    have hnd_tail : (line :: rest).Nodup := hnd.of_cons
    have hchosen_notin : chosen ∉ line :: rest := (List.nodup_cons.mp hnd).1
    rw [List.length_cons, allDraws, List.countP_flatMap]
    have hmap : ((List.range (m + 1)).map
        ((List.countP fun ds =>
          decide (VerachellSource.reservoirGo chosen (m + 1) (line :: rest) ds =
            (line :: rest)[j])) ∘
          fun d => (allDraws rest.length (m + 1 + 1)).map fun ds => d :: ds)) =
        (List.range (m + 1)).map fun d =>
          if d = 0
          then ((allDraws rest.length (m + 1 + 1)).countP fun ds =>
            decide (VerachellSource.reservoirGo line (m + 1 + 1) rest ds =
              (line :: rest)[j]))
          else ((allDraws rest.length (m + 1 + 1)).countP fun ds =>
            decide (VerachellSource.reservoirGo chosen (m + 1 + 1) rest ds =
              (line :: rest)[j])) := by
      apply List.map_congr_left
      intro d _
      simp only [Function.comp, List.countP_map]
      have hpred : ((fun ds =>
          decide (VerachellSource.reservoirGo chosen (m + 1) (line :: rest) ds =
            (line :: rest)[j])) ∘ fun ds => d :: ds) =
          fun ds => decide (VerachellSource.reservoirGo (if d = 0 then line else chosen)
            (m + 1 + 1) rest ds = (line :: rest)[j]) := by
        funext ds
        simp only [Function.comp]
        rw [VerachellSource.reservoirGo]
      rw [hpred]
      by_cases hd : d = 0
      · subst hd
        simp
      · simp [hd]
    rw [hmap]
    cases j with
    | zero =>
      have h0 : ((line :: rest)[0] : α) = line := rfl
      rw [h0]
      have hA : ((allDraws rest.length (m + 1 + 1)).countP fun ds =>
          decide (VerachellSource.reservoirGo line (m + 1 + 1) rest ds = line)) =
          cInit (m + 1 + 1) rest.length :=
        countP_allDraws_init rest (m + 1) line (List.nodup_cons.mp hnd_tail).1
      have hB : ((allDraws rest.length (m + 1 + 1)).countP fun ds =>
          decide (VerachellSource.reservoirGo chosen (m + 1 + 1) rest ds = line)) = 0 := by
        apply countP_allDraws_notmem
        intro hmem
        rcases List.mem_cons.mp hmem with heq | hmem2
        · exact (List.nodup_cons.mp hnd).1 (heq ▸ List.mem_cons_self line rest)
        · exact (List.nodup_cons.mp hnd_tail).1 hmem2
      rw [hA, hB, sum_map_range_ite, cLine]
      simp
    | succ j =>
      have hj2 : j < rest.length := by
        rw [List.length_cons] at hj
        omega
      have hsj : ((line :: rest)[j + 1] : α) = rest[j] := rfl
      rw [hsj]
      have hA : ((allDraws rest.length (m + 1 + 1)).countP fun ds =>
          decide (VerachellSource.reservoirGo line (m + 1 + 1) rest ds = rest[j])) =
          cLine (m + 1 + 1) rest.length j :=
        ih (m + 1) j hj2 line hnd_tail
      have hnd_chosen : (chosen :: rest).Nodup := by
        rw [List.nodup_cons]
        exact ⟨fun hmem => (List.nodup_cons.mp hnd).1 (List.mem_cons_of_mem line hmem),
          hnd_tail.of_cons⟩
      have hB : ((allDraws rest.length (m + 1 + 1)).countP fun ds =>
          decide (VerachellSource.reservoirGo chosen (m + 1 + 1) rest ds = rest[j])) =
          cLine (m + 1 + 1) rest.length j :=
        ih (m + 1) j hj2 chosen hnd_chosen
      rw [hA, hB, sum_map_range_ite, cLine]
      ring

lemma count_div_eq (c t L : Nat) (hc : c * L = t) (ht : 0 < t) (hL : 0 < L) :
    (c : ℚ) / (t : ℚ) = 1 / (L : ℚ) := by
  have ht2 : (t : ℚ) ≠ 0 := by
    exact_mod_cast Nat.pos_iff_ne_zero.mp ht
  have hL2 : (L : ℚ) ≠ 0 := by
    exact_mod_cast Nat.pos_iff_ne_zero.mp hL
  rw [div_eq_div_iff ht2 hL2, one_mul]
  exact_mod_cast hc


/-- Claim C1: modelling the draws as independent uniform choices (one draw in
`[0, k)` per line at 1-based position `k ≥ 2`), `random_line` selects each of
the `L` lines of a non-empty file with probability exactly `1 / L`: for every
line index the fraction of draw sequences choosing it is `1 / L`. -/
theorem reservoir_uniform {α : Type} [DecidableEq α] (lines : List α)
    (hnd : lines.Nodup) (i : Nat) (hi : i < lines.length) :
    (((allDraws (lines.length - 1) 2).countP fun ds =>
        decide (VerachellSource.random_line lines ds = some lines[i])) : ℚ) /
      ((allDraws (lines.length - 1) 2).length : ℚ) = 1 / (lines.length : ℚ) := by
  cases lines with
  | nil => simp at hi
  | cons l ls =>
    have hlen : (l :: ls).length - 1 = ls.length := by simp
    have hpred : (fun ds => decide (VerachellSource.random_line (l :: ls) ds
        = some (l :: ls)[i])) =
        fun ds => decide (VerachellSource.reservoirGo l 2 ls ds = (l :: ls)[i]) := by
      funext ds
      apply decide_eq_decide.mpr
      rw [VerachellSource.random_line]
      exact Option.some_inj
    rw [hlen, hpred, length_allDraws]
    have hpos : 0 < risingProd 2 ls.length := risingProd_pos ls.length 2 (by omega)
    cases i with
    | zero =>
      have h0 : ((l :: ls)[0] : α) = l := rfl
      rw [h0]
      have hcount := countP_allDraws_init ls 1 l (List.nodup_cons.mp hnd).1
      simp only [show (1 : Nat) + 1 = 2 from rfl] at hcount
      rw [hcount]
      have hc := cInit_mul ls.length 1
      simp only [show (1 : Nat) + 1 = 2 from rfl, one_mul] at hc
      rw [Nat.add_comm 1 ls.length] at hc
      apply count_div_eq
      · rw [List.length_cons]
        exact hc
      · exact hpos
      · simp
    | succ j =>
      have hj : j < ls.length := by
        rw [List.length_cons] at hi
        omega
      have hsj : ((l :: ls)[j + 1] : α) = ls[j] := rfl
      rw [hsj]
      have hcount := countP_allDraws_line ls 1 j hj l hnd
      simp only [show (1 : Nat) + 1 = 2 from rfl] at hcount
      rw [hcount]
      have hc := cLine_mul ls.length j 1 hj
      simp only [show (1 : Nat) + 1 = 2 from rfl] at hc
      rw [Nat.add_comm 1 ls.length] at hc
      apply count_div_eq
      · rw [List.length_cons]
        exact hc
      · exact hpos
      · simp

/-- Claim C1 witness: over the 6 equiprobable draw sequences for a 3-line
file, the middle line is chosen with probability `1 / 3`. -/
theorem reservoir_uniform_witness :
    ([0, 1, 2] : List Nat).Nodup ∧
    (((allDraws (([0, 1, 2] : List Nat).length - 1) 2).countP fun ds =>
        decide (VerachellSource.random_line ([0, 1, 2] : List Nat) ds =
          some (([0, 1, 2] : List Nat)[1]))) : ℚ) /
      ((allDraws (([0, 1, 2] : List Nat).length - 1) 2).length : ℚ) =
      1 / (([0, 1, 2] : List Nat).length : ℚ) :=
  ⟨by decide, reservoir_uniform [0, 1, 2] (by decide) 1 (by decide)⟩

end Randnd